import Mathlib

/-!
Verification development for the AnonAddyDataFetch repository.

The repository contains two near-duplicate Python scripts:
  * `src/addyio-data-fetch.py` — fetches alias records page by page from the
    addy.io REST API and writes selected columns to a CSV file;
  * `src/retrieve-information.py` — the older variant with a fixed column
    pair `('email', 'description')`.

This file shallowly embeds the parts of those scripts that the verified
properties are about: the JSON record model, Python `dict` access semantics
(`d.get(k)` versus `d[k]`), the pagination loop `perform_fetches`, the
column validation and selection logic of `__main__`, and the CSV writer
(Python's `csv.writer` with the `excel` dialect) together with a model of
`csv.reader` used to state the round-trip property.

The network is modelled by a list of `Response` values: the response to page
1 is the head of the list, the response to page 2 the next element, and so
on, mirroring the `page_number += 1` loop.  A run that exhausts the list
without reaching an empty page corresponds to an unbounded loop and is
marked `outOfPages`.
-/

namespace AddyFetch

/-- Equality of `Except` results is decidable whenever it is on both
components (used to evaluate the embedded operations at concrete
inputs). -/
instance {ε α : Type} [DecidableEq ε] [DecidableEq α] :
    DecidableEq (Except ε α)
  | .error a, .error b =>
    if h : a = b then .isTrue (by rw [h]) else .isFalse (by simp [h])
  | .error _, .ok _ => .isFalse (by simp)
  | .ok _, .error _ => .isFalse (by simp)
  | .ok a, .ok b =>
    if h : a = b then .isTrue (by rw [h]) else .isFalse (by simp [h])

/-- A scalar JSON value as produced by `response.json()`: the remote API's
records map field names to strings, booleans, numbers or null. -/
inductive JValue where
  | str (v : String)
  | bool (v : Bool)
  | num (v : Int)
  | null
deriving DecidableEq, Repr

/-- A Python dict parsed from JSON: an association list from field names to
scalar values (JSON object keys are unique; lookup takes the first
binding). -/
abbrev Record := List (String × JValue)

/-- The part of a `requests` response the scripts inspect: `status_code` and
the `data` array of `response.json()` (both scripts immediately take
`page_data['data']`). -/
structure Response where
  status_code : Nat
  data : List Record
deriving DecidableEq, Repr

/-- Python `d.get(key)`: returns the value, or `None` when the key is
absent.  It never raises. -/
def dict_get (d : Record) (k : String) : Option JValue :=
  d.lookup k

/-- Python `d.get(key)` as a possibly-raising operation, to embed the
`try/except KeyError` in `key_is_missing` faithfully: `dict.get` is total,
so the result is always `.ok`. -/
def dict_get_checked (d : Record) (k : String) : Except String (Option JValue) :=
  .ok (dict_get d k)

/-- `key_is_missing(d, key)` from `src/addyio-data-fetch.py` lines 64-70:
`try: d.get(key); return False; except KeyError: return True`.  The
`except` branch is the `.error` arm of the match. -/
def key_is_missing (d : Record) (k : String) : Bool :=
  match dict_get_checked d k with
  | .ok _ => false
  | .error _ => true

/-- Python `d[key]`: the value when present, otherwise a `KeyError` carrying
the key. -/
def dict_getitem (d : Record) (k : String) : Except String JValue :=
  match d.lookup k with
  | some v => .ok v
  | none => .error k

/-- The list comprehension `[datum[column_name] for column_name in
column_names]` (`src/addyio-data-fetch.py` line 101): looks each column up
with `datum[...]`, propagating the first `KeyError`. -/
def project_datum (column_names : List String) (datum : Record) :
    Except String (List JValue) :=
  match column_names with
  | [] => .ok []
  | c :: rest =>
    match dict_getitem datum c with
    | .error k => .error k
    | .ok v =>
      match project_datum rest datum with
      | .error k => .error k
      | .ok vs => .ok (v :: vs)

/-- How a run of `perform_fetches` ends.  `exitBadStatus` is the `exit(1)`
after logging a status code `>= 400`; `exitMissingKeys` is the
`sys.exit(1)` after logging `Missing keys detected`; `uncaughtKeyError` is
a `KeyError` escaping `datum[column_name]` (the interpreter terminates the
process with a traceback and exit status 1); `outOfPages` is the model
artifact for a server that never returns an empty page. -/
inductive FetchOutcome where
  | ok (table : List (List JValue))
  | exitBadStatus (status : Nat)
  | exitMissingKeys (keys : List String)
  | uncaughtKeyError (key : String)
  | outOfPages
deriving DecidableEq, Repr

namespace Addyio

/-- The inner `for datum in page_data` loop of `perform_fetches`
(`src/addyio-data-fetch.py` lines 96-101): for each record, collect the
requested columns that `key_is_missing` reports missing, `sys.exit(1)` when
that list is non-empty, otherwise append the projected row to the
accumulated table. -/
def append_rows (column_names : List String) (acc : List (List JValue)) :
    List Record → Except FetchOutcome (List (List JValue))
  | [] => .ok acc
  | datum :: rest =>
    let missing_keys := column_names.filter (fun c => key_is_missing datum c)
    if missing_keys.length > 0 then
      .error (.exitMissingKeys missing_keys)
    else
      match project_datum column_names datum with
      | .error k => .error (.uncaughtKeyError k)
      | .ok row => append_rows column_names (acc ++ [row]) rest

/-- The `while True` loop of `perform_fetches` (`src/addyio-data-fetch.py`
lines 81-103) over the remaining server responses: stop with `exit(1)` on a
status code `>= 400`, break out of the loop on an empty `data` array,
otherwise fold the page's records into the table and fetch the next
page. -/
def fetch_pages (column_names : List String) (acc : List (List JValue)) :
    List Response → FetchOutcome
  | [] => .outOfPages
  | r :: rest =>
    if r.status_code ≥ 400 then
      .exitBadStatus r.status_code
    else if r.data.length = 0 then
      .ok acc
    else
      match append_rows column_names acc r.data with
      | .error out => out
      | .ok acc2 => fetch_pages column_names acc2 rest

/-- `perform_fetches` from `src/addyio-data-fetch.py` lines 73-103: the
accumulated table starts as `[column_names]` (the header row) and grows one
row per record until the first empty page. -/
def perform_fetches (column_names : List String) (pages : List Response) :
    FetchOutcome :=
  fetch_pages column_names [column_names.map JValue.str] pages

end Addyio

namespace RetrieveInfo

/-- The inner `for datum in page_data` loop of `perform_fetches` in
`src/retrieve-information.py` lines 81-82: appends the tuple
`(datum['email'], datum['description'])`, evaluating `datum['email']`
first, so the first absent key of that pair raises the `KeyError`. -/
def append_rows (acc : List (List JValue)) :
    List Record → Except FetchOutcome (List (List JValue))
  | [] => .ok acc
  | datum :: rest =>
    match dict_getitem datum "email" with
    | .error k => .error (.uncaughtKeyError k)
    | .ok e =>
      match dict_getitem datum "description" with
      | .error k => .error (.uncaughtKeyError k)
      | .ok dsc => append_rows (acc ++ [[e, dsc]]) rest

/-- The `while True` loop of `perform_fetches` in
`src/retrieve-information.py` lines 67-84. -/
def fetch_pages (acc : List (List JValue)) : List Response → FetchOutcome
  | [] => .outOfPages
  | r :: rest =>
    if r.status_code ≥ 400 then
      .exitBadStatus r.status_code
    else if r.data.length = 0 then
      .ok acc
    else
      match append_rows acc r.data with
      | .error out => out
      | .ok acc2 => fetch_pages acc2 rest

/-- `perform_fetches` from `src/retrieve-information.py` lines 58-84: the
table starts as `[('email', 'description')]`. -/
def perform_fetches (pages : List Response) : FetchOutcome :=
  fetch_pages [[JValue.str "email", JValue.str "description"]] pages

end RetrieveInfo

/-! ## CSV output

`write_data_to_csv` (both scripts) opens the output file and writes each
row with `csv.writer(fp, dialect='excel')`.  The `excel` dialect uses
delimiter `,`, quote character `"`, `QUOTE_MINIMAL` quoting (a field is
quoted exactly when it contains the delimiter, the quote character or a
line-terminator character) with quote characters doubled, and line
terminator `"\r\n"`.  CPython additionally quotes a record consisting of a
single empty field (it would otherwise be indistinguishable from a blank
line).  The model below produces the text written to the file. -/

/-- Whether `QUOTE_MINIMAL` quotes a field: it contains `,`, `"`, `\r` or
`\n`. -/
def needs_quoting (s : String) : Bool :=
  s.data.any (fun c => c = ',' || c = '"' || c = '\r' || c = '\n')

/-- Double every quote character of a field (char-list form). -/
def escape_quotes_list : List Char → List Char
  | [] => []
  | c :: rest =>
    if c = '"' then '"' :: '"' :: escape_quotes_list rest
    else c :: escape_quotes_list rest

/-- Double every quote character of a field. -/
def escape_quotes (s : String) : String :=
  ⟨escape_quotes_list s.data⟩

/-- One serialized field under the `excel` dialect. -/
def write_field (s : String) : String :=
  if needs_quoting s then "\"" ++ escape_quotes s ++ "\"" else s

/-- The serialized fields of a record joined with the delimiter. -/
def join_fields : List String → String
  | [] => ""
  | [f] => write_field f
  | f :: g :: rest => write_field f ++ "," ++ join_fields (g :: rest)

/-- One serialized record: the joined fields (a lone empty field is quoted,
CPython's special case) followed by the `\r\n` terminator. -/
def write_row (r : List String) : String :=
  (if r.length > 0 && (join_fields r).data.length = 0 then "\"\""
   else join_fields r) ++ "\r\n"

/-- `write_data_to_csv` from `src/addyio-data-fetch.py` lines 106-117 and
`src/retrieve-information.py` lines 87-98, as the text written to the
(truncated) output file: `csv_writer.writerow(record)` for each record in
order. -/
def write_data_to_csv (data : List (List String)) : String :=
  match data with
  | [] => ""
  | r :: rest => write_row r ++ write_data_to_csv rest

/-- Python's `str()` applied to a scalar JSON value, as `csv.writer` applies
it to non-string cell values. -/
def py_str : JValue → String
  | .str v => v
  | .bool true => "True"
  | .bool false => "False"
  | .num i => toString i
  | .null => "None"

/-! ## CSV reading

A model of Python's `csv.reader` with the `excel` dialect (`strict=False`),
used to state the round-trip property.  It is the reader's state machine:
outside a record, at the start of a field, inside an unquoted field, inside
a quoted field, or just after a quote inside a quoted field.  A blank line
yields the empty record `[]`; a record terminator is `\r\n`, a lone `\r` or
a lone `\n`. -/

/-- After a record ends at `\r`, the reader consumes one immediately
following `\n` (the second half of a `\r\n` terminator). -/
def eat_lf : List Char → List Char
  | '\n' :: rest => rest
  | rest => rest

/-- The reader's state. -/
inductive ScanState where
  | startRecord
  | startField
  | inField
  | inQuoted
  | afterQuote
deriving DecidableEq, Repr

/-- The `csv.reader` state machine over the remaining characters.  `cur` is
the field being accumulated and `fields` the fields of the current record
already completed. -/
def csv_read : List Char → ScanState → String → List String → List (List String)
  | [], .startRecord, _, _ => []
  | [], .startField, cur, fields => [fields ++ [cur]]
  | [], .inField, cur, fields => [fields ++ [cur]]
  | [], .inQuoted, cur, fields => [fields ++ [cur]]
  | [], .afterQuote, cur, fields => [fields ++ [cur]]
  | c :: rest, .startRecord, cur, fields =>
    if c = '\r' then [] :: csv_read (eat_lf rest) .startRecord "" []
    else if c = '\n' then [] :: csv_read rest .startRecord "" []
    else if c = ',' then csv_read rest .startField "" (fields ++ [cur])
    else if c = '"' then csv_read rest .inQuoted cur fields
    else csv_read rest .inField (cur.push c) fields
  | c :: rest, .startField, cur, fields =>
    if c = '\r' then (fields ++ [cur]) :: csv_read (eat_lf rest) .startRecord "" []
    else if c = '\n' then (fields ++ [cur]) :: csv_read rest .startRecord "" []
    else if c = ',' then csv_read rest .startField "" (fields ++ [cur])
    else if c = '"' then csv_read rest .inQuoted cur fields
    else csv_read rest .inField (cur.push c) fields
  | c :: rest, .inField, cur, fields =>
    if c = '\r' then (fields ++ [cur]) :: csv_read (eat_lf rest) .startRecord "" []
    else if c = '\n' then (fields ++ [cur]) :: csv_read rest .startRecord "" []
    else if c = ',' then csv_read rest .startField "" (fields ++ [cur])
    else csv_read rest .inField (cur.push c) fields
  | c :: rest, .inQuoted, cur, fields =>
    if c = '"' then csv_read rest .afterQuote cur fields
    else csv_read rest .inQuoted (cur.push c) fields
  | c :: rest, .afterQuote, cur, fields =>
    if c = '"' then csv_read rest .inQuoted (cur.push '"') fields
    else if c = '\r' then (fields ++ [cur]) :: csv_read (eat_lf rest) .startRecord "" []
    else if c = '\n' then (fields ++ [cur]) :: csv_read rest .startRecord "" []
    else if c = ',' then csv_read rest .startField "" (fields ++ [cur])
    else csv_read rest .inField (cur.push c) fields
termination_by cs _ _ _ => cs.length
decreasing_by
  all_goals simp_arith
  all_goals unfold eat_lf
  all_goals split <;> simp_arith

/-- Parse a CSV text into its records, as `csv.reader` does. -/
def csv_parse (s : String) : List (List String) :=
  csv_read s.data .startRecord "" []

/-! ## Command line handling (`src/addyio-data-fetch.py` `__main__`) -/

/-- The `choices` list of the `--log-level` argument
(`src/addyio-data-fetch.py` lines 20-23). -/
def log_level_choices : List String :=
  ["debug", "info", "warning", "error", "critical"]

/-- `logging_level_from_string` (`src/addyio-data-fetch.py` lines 129-153):
maps the level name through the dict (which also knows `fatal`) and raises
`ValueError('Unknown level supplied.')` when `mapping.get` returns `None`.
The numbers are the `logging` module's level constants. -/
def logging_level_from_string (log_level : String) : Except String Nat :=
  let mapping : List (String × Nat) :=
    [("debug", 10), ("info", 20), ("warning", 30), ("error", 40),
     ("critical", 50), ("fatal", 50)]
  match mapping.lookup log_level with
  | none => .error "Unknown level supplied."
  | some logging_level => .ok logging_level

/-- `main_column_list` (`src/addyio-data-fetch.py` lines 156-177): the fixed
allow-list of permissible column names, in its source order. -/
def main_column_list : List String :=
  ["id", "user_id", "aliasable_id", "aliasable_type", "local_part",
   "extension", "domain", "email", "active", "description",
   "emails_forwarded", "emails_blocked", "emails_replied", "emails_sent",
   "recipients", "created_at", "updated_at", "deleted_at"]

/-- `validate_user_column_selection` (`src/addyio-data-fetch.py` lines
180-190): walks the selection and returns `False` at the first name not in
the main list (logging a warning), `True` when all names are known. -/
def validate_user_column_selection : List String → Bool
  | [] => true
  | column_name :: rest =>
    if main_column_list.contains column_name then
      validate_user_column_selection rest
    else
      false

/-- Python `str.strip()` restricted to the whitespace that can appear in a
command line argument: drop leading and trailing whitespace characters. -/
def py_strip (s : String) : String :=
  ⟨((s.data.dropWhile Char.isWhitespace).reverse.dropWhile
      Char.isWhitespace).reverse⟩

/-- Python `s.split(',')` (char-list form): split at every comma, keeping
empty parts, so the result always has one more part than there are
commas. -/
def split_commas_list : List Char → List (List Char)
  | [] => [[]]
  | c :: rest =>
    if c = ',' then [] :: split_commas_list rest
    else
      match split_commas_list rest with
      | [] => [[c]]
      | part :: parts => (c :: part) :: parts

/-- Python `s.split(',')`. -/
def split_commas (s : String) : List String :=
  (split_commas_list s.data).map (fun part => String.mk part)

/-- `[column_name.strip() for column_name in args.columns.split(',')]`
(`src/addyio-data-fetch.py` line 204). -/
def parse_columns_argument (s : String) : List String :=
  (split_commas s).map py_strip

/-- The column selection of `__main__` (`src/addyio-data-fetch.py` lines
201-206): the full `main_column_list` when `--columns` is absent, otherwise
the split-and-stripped user list, validated against the main list with
`exit(1)` on failure. -/
def choose_column_names (columns_arg : Option String) :
    Except Nat (List String) :=
  match columns_arg with
  | none => .ok main_column_list
  | some s =>
    let column_names := parse_columns_argument s
    if validate_user_column_selection column_names = false then .error 1
    else .ok column_names

/-- The observable result of one process run: the exit status and the text
written to the output file (`none` when the file was never opened). -/
structure RunResult where
  exitCode : Nat
  fileWritten : Option String
deriving DecidableEq, Repr

/-- `main` (`src/addyio-data-fetch.py` lines 120-126): fetch everything,
then write the table to the file.  Every non-`ok` outcome of
`perform_fetches` terminates the process before `write_data_to_csv` runs —
`exit(1)`/`sys.exit(1)` directly, an uncaught `KeyError` through the
interpreter (whose exit status for an uncaught exception is 1) — so the
file is written only on success.  `none` is the model artifact for a server
that never ends the pagination. -/
def run_main (column_names : List String) (pages : List Response) :
    Option RunResult :=
  match Addyio.perform_fetches column_names pages with
  | .ok table =>
    some ⟨0, some (write_data_to_csv (table.map (fun row => row.map py_str)))⟩
  | .exitBadStatus _ => some ⟨1, none⟩
  | .exitMissingKeys _ => some ⟨1, none⟩
  | .uncaughtKeyError _ => some ⟨1, none⟩
  | .outOfPages => none

/-- The `__main__` block of `src/addyio-data-fetch.py` (lines 193-208).
`argparse` checks `--log-level` against its `choices` first and, for a
value outside them, calls `ArgumentParser.error`, which prints a usage
message and exits the process with status 2 (CPython `argparse`).  A value
in `choices` is in `logging_level_from_string`'s mapping, but were the
`ValueError` raised it would escape uncaught (exit status 1).  Then the
columns are chosen and validated, and `main` runs. -/
def run_program (log_level : String) (columns_arg : Option String)
    (pages : List Response) : Option RunResult :=
  if log_level_choices.contains log_level = false then
    some ⟨2, none⟩
  else
    match logging_level_from_string log_level with
    | .error _ => some ⟨1, none⟩
    | .ok _ =>
      match choose_column_names columns_arg with
      | .error code => some ⟨code, none⟩
      | .ok column_names => run_main column_names pages

/-! ## Specification-side shorthands

Definitions used only to state the verified properties; the lemmas below
relate them to the embedded operations. -/

/-- The row a record projects to when every requested column is present:
the record's values in requested-column order. -/
def row_of (column_names : List String) (datum : Record) : List JValue :=
  column_names.map (fun c => (dict_get datum c).getD JValue.null)

/-- The concatenation of the projected records of a list of pages, in
server-provided order within and across pages. -/
def fetched_rows (column_names : List String) : List Response → List (List JValue)
  | [] => []
  | r :: rest => r.data.map (row_of column_names) ++ fetched_rows column_names rest

/-- A page the fetch loop passes through: success status, at least one
record, and every record carries every requested column. -/
def good_page (column_names : List String) (r : Response) : Prop :=
  r.status_code < 400 ∧ r.data ≠ [] ∧
    ∀ d ∈ r.data, ∀ c ∈ column_names, (dict_get d c).isSome = true

instance (column_names : List String) (r : Response) :
    Decidable (good_page column_names r) := by
  unfold good_page; infer_instance

/-! ## Lemmas about dict access and projection -/

theorem key_is_missing_false (d : Record) (k : String) :
    key_is_missing d k = false := rfl

theorem filter_key_is_missing (column_names : List String) (d : Record) :
    column_names.filter (fun c => key_is_missing d c) = [] := by
  induction column_names with
  | nil => rfl
  | cons c rest ih => simp [List.filter, key_is_missing_false, ih]

theorem project_datum_ok (column_names : List String) (datum : Record)
    (h : ∀ c ∈ column_names, (dict_get datum c).isSome = true) :
    project_datum column_names datum = .ok (row_of column_names datum) := by
  induction column_names with
  | nil => rfl
  | cons c rest ih =>
    rcases hv : dict_get datum c with _ | v
    · exact absurd (h c (by simp)) (by simp [hv])
    · have hrest : ∀ x ∈ rest, (dict_get datum x).isSome = true :=
        fun x hx => h x (by simp [hx])
      simp [project_datum, dict_getitem,
        show datum.lookup c = some v from hv, ih hrest, row_of, dict_get, hv]

theorem project_datum_ok_inv (column_names : List String) (datum : Record)
    (row : List JValue)
    (h : project_datum column_names datum = .ok row) :
    row = row_of column_names datum ∧
      ∀ c ∈ column_names, (dict_get datum c).isSome = true := by
  induction column_names generalizing row with
  | nil =>
    simp [project_datum] at h
    simp [row_of, ← h]
  | cons c rest ih =>
    rcases hv : datum.lookup c with _ | v
    · simp [project_datum, dict_getitem, hv] at h
    · rcases hrest : project_datum rest datum with k | vs
      · simp [project_datum, dict_getitem, hv, hrest] at h
      · simp [project_datum, dict_getitem, hv, hrest] at h
        obtain ⟨h1, h2⟩ := ih vs hrest
        subst h
        refine ⟨by simp [row_of, dict_get, hv, h1], ?_⟩
        intro x hx
        rcases List.mem_cons.mp hx with hx | hx
        · subst hx; simp [dict_get, hv]
        · exact h2 x hx

theorem project_datum_missing (column_names : List String) (datum : Record)
    (h : ∃ c ∈ column_names, dict_get datum c = none) :
    ∃ k ∈ column_names, dict_get datum k = none ∧
      project_datum column_names datum = .error k := by
  induction column_names with
  | nil => simp at h
  | cons c rest ih =>
    rcases hv : datum.lookup c with _ | v
    · exact ⟨c, by simp, hv, by simp [project_datum, dict_getitem, hv]⟩
    · obtain ⟨x, hx, hnone⟩ := h
      rcases List.mem_cons.mp hx with hx | hx
      · subst hx; simp [dict_get, hv] at hnone
      · obtain ⟨k, hk, hknone, herr⟩ := ih ⟨x, hx, hnone⟩
        exact ⟨k, by simp [hk], hknone,
          by simp [project_datum, dict_getitem, hv, herr]⟩

theorem row_of_length (column_names : List String) (datum : Record) :
    (row_of column_names datum).length = column_names.length := by
  simp [row_of]

/-! ## Lemmas about the addy.io fetch loop -/

namespace Addyio

theorem append_rows_ok (column_names : List String) (ds : List Record)
    (h : ∀ d ∈ ds, ∀ c ∈ column_names, (dict_get d c).isSome = true) :
    ∀ acc, append_rows column_names acc ds
      = .ok (acc ++ ds.map (row_of column_names)) := by
  induction ds with
  | nil => simp [append_rows]
  | cons d rest ih =>
    intro acc
    have hd := h d (by simp)
    have hrest : ∀ x ∈ rest, ∀ c ∈ column_names, (dict_get x c).isSome = true :=
      fun x hx => h x (by simp [hx])
    simp [append_rows, filter_key_is_missing,
      project_datum_ok column_names d hd, ih hrest]

theorem append_rows_ok_inv (column_names : List String) (ds : List Record)
    (acc acc2 : List (List JValue))
    (h : append_rows column_names acc ds = .ok acc2) :
    acc2 = acc ++ ds.map (row_of column_names) := by
  induction ds generalizing acc with
  | nil => simp [append_rows] at h; simp [h]
  | cons d rest ih =>
    rcases hp : project_datum column_names d with k | row
    · simp [append_rows, filter_key_is_missing, hp] at h
    · simp [append_rows, filter_key_is_missing, hp] at h
      obtain ⟨hrow, -⟩ := project_datum_ok_inv column_names d row hp
      subst hrow
      simp [ih _ h]

theorem append_rows_no_missing (column_names : List String) (ds : List Record)
    (acc : List (List JValue)) (keys : List String) :
    append_rows column_names acc ds ≠ .error (.exitMissingKeys keys) := by
  induction ds generalizing acc with
  | nil => simp [append_rows]
  | cons d rest ih =>
    rcases hp : project_datum column_names d with k | row <;>
      simp [append_rows, filter_key_is_missing, hp, ih]

theorem append_rows_error_forms (column_names : List String) (ds : List Record)
    (acc : List (List JValue)) (out : FetchOutcome)
    (h : append_rows column_names acc ds = .error out) :
    (∃ keys, out = .exitMissingKeys keys) ∨ (∃ k, out = .uncaughtKeyError k) := by
  induction ds generalizing acc with
  | nil => simp [append_rows] at h
  | cons d rest ih =>
    rcases hp : project_datum column_names d with k | row
    · simp [append_rows, filter_key_is_missing, hp] at h
      exact .inr ⟨k, h.symm⟩
    · simp [append_rows, filter_key_is_missing, hp] at h
      exact ih _ h

theorem fetch_pages_good (column_names : List String) (good : List Response)
    (h : ∀ r ∈ good, good_page column_names r) :
    ∀ acc tail, fetch_pages column_names acc (good ++ tail)
      = fetch_pages column_names (acc ++ fetched_rows column_names good) tail := by
  induction good with
  | nil => simp [fetched_rows]
  | cons r rest ih =>
    intro acc tail
    obtain ⟨h4, hne, hproj⟩ := h r (by simp)
    have hrest : ∀ x ∈ rest, good_page column_names x :=
      fun x hx => h x (by simp [hx])
    have hlen : r.data.length ≠ 0 := by simpa using hne
    simp [fetch_pages, Nat.not_le.mpr h4, hlen,
      append_rows_ok column_names r.data hproj, ih hrest, fetched_rows]

theorem fetch_pages_ok_inv (column_names : List String)
    (pages : List Response) (acc t : List (List JValue))
    (h : fetch_pages column_names acc pages = .ok t) :
    ∃ rows, t = acc ++ rows ∧
      ∀ row ∈ rows, row.length = column_names.length := by
  induction pages generalizing acc with
  | nil => simp [fetch_pages] at h
  | cons r rest ih =>
    by_cases hs : r.status_code ≥ 400
    · simp [fetch_pages, hs] at h
    · by_cases hlen : r.data.length = 0
      · simp [fetch_pages, hs, hlen] at h
        exact ⟨[], by simp [h], by simp⟩
      · rcases ha : append_rows column_names acc r.data with out | acc2
        · simp [fetch_pages, hs, hlen, ha] at h
          rcases append_rows_error_forms column_names r.data acc out ha with
            ⟨keys, hk⟩ | ⟨k, hk⟩ <;> simp [hk] at h
        · simp [fetch_pages, hs, hlen, ha] at h
          obtain ⟨rows, hrows, hlens⟩ := ih _ h
          have hacc2 := append_rows_ok_inv column_names r.data acc acc2 ha
          refine ⟨r.data.map (row_of column_names) ++ rows, ?_, ?_⟩
          · simp [hrows, hacc2]
          · intro row hrow
            rcases List.mem_append.mp hrow with hrow | hrow
            · obtain ⟨d, -, hd⟩ := List.mem_map.mp hrow
              simp [← hd, row_of_length]
            · exact hlens row hrow

theorem fetch_pages_no_missing (column_names : List String)
    (pages : List Response) (acc : List (List JValue)) (keys : List String) :
    fetch_pages column_names acc pages ≠ .exitMissingKeys keys := by
  induction pages generalizing acc with
  | nil => simp [fetch_pages]
  | cons r rest ih =>
    by_cases hs : r.status_code ≥ 400
    · simp [fetch_pages, hs]
    · by_cases hlen : r.data.length = 0
      · simp [fetch_pages, hs, hlen]
      · rcases ha : append_rows column_names acc r.data with out | acc2
        · simp [fetch_pages, hs, hlen, ha]
          rcases append_rows_error_forms column_names r.data acc out ha with
            ⟨ks, hk⟩ | ⟨k, hk⟩
          · exact absurd (hk ▸ ha) (append_rows_no_missing column_names r.data acc ks)
          · simp [hk]
        · simp [fetch_pages, hs, hlen, ha, ih]

end Addyio

/-! ## The two scripts' fetch loops agree

`retrieve-information.py` projects `(datum['email'], datum['description'])`
directly; `addyio-data-fetch.py` runs the (inert, see
`key_is_missing_false`) missing-key check first and then projects the
requested columns.  For the column list `["email", "description"]` the two
loops compute the same outcome. -/

theorem ri_append_rows_eq (ds : List Record) :
    ∀ acc, RetrieveInfo.append_rows acc ds
      = Addyio.append_rows ["email", "description"] acc ds := by
  induction ds with
  | nil => intro acc; rfl
  | cons d rest ih =>
    intro acc
    rcases he : dict_getitem d "email" with k | e <;>
      rcases hd : dict_getitem d "description" with k2 | dsc <;>
        simp [RetrieveInfo.append_rows, Addyio.append_rows,
          filter_key_is_missing, project_datum, he, hd, ih]

theorem ri_fetch_pages_eq (pages : List Response) :
    ∀ acc, RetrieveInfo.fetch_pages acc pages
      = Addyio.fetch_pages ["email", "description"] acc pages := by
  induction pages with
  | nil => intro acc; rfl
  | cons r rest ih =>
    intro acc
    rcases ha : RetrieveInfo.append_rows acc r.data with out | acc2 <;>
      simp [RetrieveInfo.fetch_pages, Addyio.fetch_pages,
        ha, ha ▸ ri_append_rows_eq r.data acc, ih]

theorem ri_perform_fetches_eq (pages : List Response) :
    RetrieveInfo.perform_fetches pages
      = Addyio.perform_fetches ["email", "description"] pages := by
  simpa [RetrieveInfo.perform_fetches, Addyio.perform_fetches] using
    ri_fetch_pages_eq pages [[JValue.str "email", JValue.str "description"]]

/-! ## Lemmas about column validation -/

theorem validate_false_iff (selection : List String) :
    validate_user_column_selection selection = false ↔
      ∃ c ∈ selection, c ∉ main_column_list := by
  induction selection with
  | nil => simp [validate_user_column_selection]
  | cons c rest ih =>
    by_cases hc : main_column_list.contains c
    · have hmem : c ∈ main_column_list := by
        simpa using hc
      simp [validate_user_column_selection, hc, ih, hmem]
    · have hmem : c ∉ main_column_list := by
        simpa using hc
      simp [validate_user_column_selection, hc, hmem]

/-! ## Lemmas about the CSV writer and reader -/

theorem push_append_mk (cur : String) (c : Char) (cs : List Char) :
    cur.push c ++ String.mk cs = cur ++ String.mk (c :: cs) := by
  apply String.ext
  simp [String.data_append, String.data_push]

/-- Consuming ordinary characters inside an unquoted field accumulates them
into the current field. -/
theorem csv_run_inField (cs : List Char)
    (h : ∀ c ∈ cs, c ≠ ',' ∧ c ≠ '\r' ∧ c ≠ '\n') :
    ∀ (rest : List Char) (cur : String) (fields : List String),
      csv_read (cs ++ rest) .inField cur fields
        = csv_read rest .inField (cur ++ String.mk cs) fields := by
  induction cs with
  | nil => intro rest cur fields; simp
  | cons c cs2 ih =>
    intro rest cur fields
    obtain ⟨h1, h3, h4⟩ := h c (by simp)
    have hrest : ∀ x ∈ cs2, x ≠ ',' ∧ x ≠ '\r' ∧ x ≠ '\n' :=
      fun x hx => h x (by simp [hx])
    calc csv_read (c :: (cs2 ++ rest)) .inField cur fields
        = csv_read (cs2 ++ rest) .inField (cur.push c) fields := by
          simp [csv_read, h1, h3, h4]
      _ = csv_read rest .inField (cur.push c ++ String.mk cs2) fields :=
          ih hrest rest (cur.push c) fields
      _ = csv_read rest .inField (cur ++ String.mk (c :: cs2)) fields := by
          rw [push_append_mk]

/-- Consuming the quote-escaped form of a field's characters inside a quoted
field accumulates the original characters. -/
theorem csv_run_inQuoted (cs : List Char) :
    ∀ (rest : List Char) (cur : String) (fields : List String),
      csv_read (escape_quotes_list cs ++ rest) .inQuoted cur fields
        = csv_read rest .inQuoted (cur ++ String.mk cs) fields := by
  induction cs with
  | nil => intro rest cur fields; simp [escape_quotes_list]
  | cons c cs2 ih =>
    intro rest cur fields
    by_cases hc : c = '"'
    · subst hc
      have hesc : escape_quotes_list ('"' :: cs2)
          = '"' :: '"' :: escape_quotes_list cs2 := by
        simp [escape_quotes_list]
      rw [hesc]
      have h1 : csv_read ('"' :: '"' :: (escape_quotes_list cs2 ++ rest))
          .inQuoted cur fields
          = csv_read (escape_quotes_list cs2 ++ rest) .inQuoted
              (cur.push '"') fields := by
        simp [csv_read]
      rw [List.cons_append, List.cons_append, h1, ih, push_append_mk]
    · have hesc : escape_quotes_list (c :: cs2)
          = c :: escape_quotes_list cs2 := by
        simp [escape_quotes_list, hc]
      rw [hesc]
      have h1 : csv_read (c :: (escape_quotes_list cs2 ++ rest))
          .inQuoted cur fields
          = csv_read (escape_quotes_list cs2 ++ rest) .inQuoted
              (cur.push c) fields := by
        simp [csv_read, hc]
      rw [List.cons_append, h1, ih, push_append_mk]

theorem not_quoting_chars (f : String) (h : needs_quoting f = false) :
    ∀ c ∈ f.data, c ≠ ',' ∧ c ≠ '"' ∧ c ≠ '\r' ∧ c ≠ '\n' := by
  intro c hc
  simp [needs_quoting] at h
  have := h c hc
  tauto

theorem write_field_quoted_data (f : String) (hq : needs_quoting f = true) :
    (write_field f).data = '"' :: (escape_quotes_list f.data ++ ['"']) := by
  simp [write_field, hq, escape_quotes, String.data_append]

/-- Consuming a quoted serialized field from the start of a field leaves the
reader just after the closing quote with the original field accumulated. -/
theorem csv_field_quoted (f : String) (hq : needs_quoting f = true)
    (rest : List Char) (fields : List String) :
    csv_read ((write_field f).data ++ rest) .startField "" fields
      = csv_read rest .afterQuote f fields := by
  rw [write_field_quoted_data f hq, List.cons_append]
  have h1 : csv_read ('"' :: ((escape_quotes_list f.data ++ ['"']) ++ rest))
      .startField "" fields
      = csv_read ((escape_quotes_list f.data ++ ['"']) ++ rest)
          .inQuoted "" fields := by
    simp [csv_read]
  rw [h1, List.append_assoc, csv_run_inQuoted]
  have hf : ("" : String) ++ String.mk f.data = f := by
    apply String.ext; simp
  rw [hf]
  simp [csv_read]

/-- Consuming an unquoted, non-empty serialized field from the start of a
field leaves the reader inside the field with it accumulated. -/
theorem csv_field_unquoted (f : String) (hq : needs_quoting f = false)
    (hne : f ≠ "") (rest : List Char) (fields : List String) :
    csv_read ((write_field f).data ++ rest) .startField "" fields
      = csv_read rest .inField f fields := by
  have hw : write_field f = f := by simp [write_field, hq]
  rw [hw]
  rcases hd : f.data with _ | ⟨c, cs⟩
  · exact absurd (String.ext hd) hne
  · obtain ⟨h1, h2, h3, h4⟩ := not_quoting_chars f hq c (by simp [hd])
    have hcs : ∀ x ∈ cs, x ≠ ',' ∧ x ≠ '\r' ∧ x ≠ '\n' := by
      intro x hx
      obtain ⟨a, -, b, d⟩ := not_quoting_chars f hq x (by simp [hd, hx])
      exact ⟨a, b, d⟩
    have hstep : csv_read (c :: (cs ++ rest)) .startField "" fields
        = csv_read (cs ++ rest) .inField (String.push "" c) fields := by
      simp [csv_read, h1, h2, h3, h4]
    rw [List.cons_append, hstep, csv_run_inField cs hcs]
    have : String.push "" c ++ String.mk cs = f := by
      apply String.ext
      simp [String.data_append, String.data_push, hd]
    rw [this]

/-- The same two facts with the reader at the start of a record (the states
behave identically on a non-terminator character). -/
theorem csv_fieldR_quoted (f : String) (hq : needs_quoting f = true)
    (rest : List Char) :
    csv_read ((write_field f).data ++ rest) .startRecord "" []
      = csv_read rest .afterQuote f [] := by
  rw [write_field_quoted_data f hq, List.cons_append]
  have h1 : csv_read ('"' :: ((escape_quotes_list f.data ++ ['"']) ++ rest))
      .startRecord "" []
      = csv_read ((escape_quotes_list f.data ++ ['"']) ++ rest)
          .inQuoted "" [] := by
    simp [csv_read]
  rw [h1, List.append_assoc, csv_run_inQuoted]
  have hf : ("" : String) ++ String.mk f.data = f := by
    apply String.ext; simp
  rw [hf]
  simp [csv_read]

theorem csv_fieldR_unquoted (f : String) (hq : needs_quoting f = false)
    (hne : f ≠ "") (rest : List Char) :
    csv_read ((write_field f).data ++ rest) .startRecord "" []
      = csv_read rest .inField f [] := by
  have hw : write_field f = f := by simp [write_field, hq]
  rw [hw]
  rcases hd : f.data with _ | ⟨c, cs⟩
  · exact absurd (String.ext hd) hne
  · obtain ⟨h1, h2, h3, h4⟩ := not_quoting_chars f hq c (by simp [hd])
    have hcs : ∀ x ∈ cs, x ≠ ',' ∧ x ≠ '\r' ∧ x ≠ '\n' := by
      intro x hx
      obtain ⟨a, -, b, d⟩ := not_quoting_chars f hq x (by simp [hd, hx])
      exact ⟨a, b, d⟩
    have hstep : csv_read (c :: (cs ++ rest)) .startRecord "" []
        = csv_read (cs ++ rest) .inField (String.push "" c) [] := by
      simp [csv_read, h1, h2, h3, h4]
    rw [List.cons_append, hstep, csv_run_inField cs hcs]
    have : String.push "" c ++ String.mk cs = f := by
      apply String.ext
      simp [String.data_append, String.data_push, hd]
    rw [this]

/-- A serialized field followed by a delimiter: the reader finishes the
field and is at the start of the next one. -/
theorem csv_field_step (f : String) (rest : List Char) (fields : List String) :
    csv_read ((write_field f).data ++ ',' :: rest) .startField "" fields
      = csv_read rest .startField "" (fields ++ [f]) := by
  by_cases hq : needs_quoting f
  · rw [csv_field_quoted f hq]
    simp [csv_read]
  · have hq2 : needs_quoting f = false := by simpa using hq
    by_cases hne : f = ""
    · subst hne
      have hw : write_field "" = "" := by simp [write_field, needs_quoting]
      rw [hw]
      simp [csv_read]
    · rw [csv_field_unquoted f hq2 hne]
      simp [csv_read]

/-- A serialized field followed by the record terminator: the reader
finishes the record. -/
theorem csv_field_endrec (f : String) (rest : List Char) (fields : List String) :
    csv_read ((write_field f).data ++ '\r' :: '\n' :: rest) .startField "" fields
      = (fields ++ [f]) :: csv_read rest .startRecord "" [] := by
  by_cases hq : needs_quoting f
  · rw [csv_field_quoted f hq]
    simp [csv_read, eat_lf]
  · have hq2 : needs_quoting f = false := by simpa using hq
    by_cases hne : f = ""
    · subst hne
      have hw : write_field "" = "" := by simp [write_field, needs_quoting]
      rw [hw]
      simp [csv_read, eat_lf]
    · rw [csv_field_unquoted f hq2 hne]
      simp [csv_read, eat_lf]

/-- `csv_field_step` from the start of a record. -/
theorem csv_fieldR_step (f : String) (rest : List Char) :
    csv_read ((write_field f).data ++ ',' :: rest) .startRecord "" []
      = csv_read rest .startField "" [f] := by
  by_cases hq : needs_quoting f
  · rw [csv_fieldR_quoted f hq]
    simp [csv_read]
  · have hq2 : needs_quoting f = false := by simpa using hq
    by_cases hne : f = ""
    · subst hne
      have hw : write_field "" = "" := by simp [write_field, needs_quoting]
      rw [hw]
      simp [csv_read]
    · rw [csv_fieldR_unquoted f hq2 hne]
      simp [csv_read]

/-- `csv_field_endrec` from the start of a record, for a non-empty field
(a record that is one empty field is handled separately — the writer quotes
it). -/
theorem csv_fieldR_endrec (f : String) (hne : f ≠ "") (rest : List Char) :
    csv_read ((write_field f).data ++ '\r' :: '\n' :: rest) .startRecord "" []
      = [f] :: csv_read rest .startRecord "" [] := by
  by_cases hq : needs_quoting f
  · rw [csv_fieldR_quoted f hq]
    simp [csv_read, eat_lf]
  · have hq2 : needs_quoting f = false := by simpa using hq
    rw [csv_fieldR_unquoted f hq2 hne]
    simp [csv_read, eat_lf]

/-- Reading back a full serialized record (from the start of its first
field, any prior fields already accumulated). -/
theorem csv_record (r : List String) (hr : r ≠ []) :
    ∀ (rest : List Char) (fields : List String),
      csv_read ((join_fields r).data ++ '\r' :: '\n' :: rest) .startField "" fields
        = (fields ++ r) :: csv_read rest .startRecord "" [] := by
  induction r with
  | nil => exact absurd rfl hr
  | cons f rs ih =>
    intro rest fields
    cases rs with
    | nil =>
      rw [show join_fields [f] = write_field f from rfl, csv_field_endrec]
    | cons g rs2 =>
      have hdata : (join_fields (f :: g :: rs2)).data
          = (write_field f).data ++ ',' :: (join_fields (g :: rs2)).data := by
        simp [join_fields, String.data_append]
      rw [hdata, List.append_assoc, List.cons_append, csv_field_step,
        ih (by simp) rest (fields ++ [f])]
      simp

theorem string_ne_empty_data (f : String) (hne : f ≠ "") : f.data ≠ [] := by
  intro h
  exact hne (String.ext h)

/-- A serialized record of more than one field, or of one non-empty field,
is a non-empty character sequence (so the writer's lone-empty-field special
case does not fire). -/
theorem join_fields_ne_nil (r : List String) (hr : r ≠ []) (hr1 : r ≠ [""]) :
    (join_fields r).data ≠ [] := by
  match r with
  | [f] =>
    have hf : f ≠ "" := fun h => hr1 (by rw [h])
    show (write_field f).data ≠ []
    by_cases hq : needs_quoting f
    · rw [write_field_quoted_data f hq]
      simp
    · have hw : write_field f = f := by simp [write_field, hq]
      rw [hw]
      exact string_ne_empty_data f hf
  | f :: g :: rs =>
    have : (join_fields (f :: g :: rs)).data
        = (write_field f).data ++ ',' :: (join_fields (g :: rs)).data := by
      simp [join_fields, String.data_append]
    rw [this]
    simp

/-- Reading back one written row from the start of a record yields exactly
that row and leaves the reader at the start of the next record. -/
theorem csv_row (r : List String) (rest : List Char) :
    csv_read ((write_row r).data ++ rest) .startRecord "" []
      = r :: csv_read rest .startRecord "" [] := by
  match r with
  | [] =>
    have hw : write_row [] = "\r\n" := rfl
    rw [hw]
    simp [csv_read, eat_lf]
  | [""] =>
    have hw : write_row [""] = "\"\"\r\n" := rfl
    rw [hw]
    simp [csv_read, eat_lf]
  | f :: rs =>
    have hcases : f :: rs ≠ [""] → (join_fields (f :: rs)).data ≠ [] :=
      join_fields_ne_nil (f :: rs) (by simp)
    by_cases h1 : f :: rs = [""]
    · rw [h1]
      have hw : write_row [""] = "\"\"\r\n" := rfl
      rw [hw]
      simp [csv_read, eat_lf]
    · have hnil := hcases h1
      have hw : write_row (f :: rs) = join_fields (f :: rs) ++ "\r\n" := by
        have hlen : ¬(join_fields (f :: rs)).length = 0 := by
          intro h0
          exact hnil (List.length_eq_zero.mp
            (show (join_fields (f :: rs)).data.length = 0 from h0))
        simp [write_row, hlen]
      rw [hw]
      have hdata : (join_fields (f :: rs) ++ "\r\n").data ++ rest
          = (join_fields (f :: rs)).data ++ '\r' :: '\n' :: rest := by
        simp [String.data_append]
      rw [hdata]
      cases rs with
      | nil =>
        have hf : f ≠ "" := fun h => h1 (by rw [h])
        rw [show join_fields [f] = write_field f from rfl,
          csv_fieldR_endrec f hf]
      | cons g rs2 =>
        have hj : (join_fields (f :: g :: rs2)).data
            = (write_field f).data ++ ',' :: (join_fields (g :: rs2)).data := by
          simp [join_fields, String.data_append]
        rw [hj, List.append_assoc, List.cons_append, csv_fieldR_step,
          csv_record (g :: rs2) (by simp) rest [f]]
        simp

/-- Writing a table and re-reading it gives back exactly its rows. -/
theorem write_then_parse (t : List (List String)) :
    csv_parse (write_data_to_csv t) = t := by
  unfold csv_parse
  induction t with
  | nil =>
    have hdata : (write_data_to_csv []).data = [] := rfl
    rw [hdata]
    simp [csv_read]
  | cons r rs ih =>
    have hdata : (write_data_to_csv (r :: rs)).data
        = (write_row r).data ++ (write_data_to_csv rs).data := by
      simp [write_data_to_csv, String.data_append]
    rw [hdata, csv_row, ih]

theorem map_py_str_str (l : List String) :
    List.map (py_str ∘ JValue.str) l = l := by
  induction l with
  | nil => rfl
  | cons c cs ih => simp [py_str, Function.comp, ih]

/-! ## The verified claims -/

/-- Claim C1, as stated, is false on the code: with column list
`["email"]`, a first page whose single record is the empty object `{}` and
a second, empty page (all status codes below 400), `perform_fetches` does
not return the header row followed by the first page's records — it
terminates with an uncaught `KeyError` at `datum['email']`, because nothing
guards the projection (see `key_is_missing_false`). -/
theorem c1_counterexample :
    Addyio.perform_fetches ["email"]
        [⟨200, [[]]⟩, ⟨200, []⟩] = .uncaughtKeyError "email" := by
  decide

/-- Claim C1 (amended): for every token, column list and page-response
sequence in which the pages before the first empty page all have status
code below 400, are non-empty, and their records contain every requested
column, and the first empty page has status below 400, the fetch loop
consumes the responses in order, stops at the first empty page (the
responses after it are arbitrary and never requested), and returns the
header row followed by exactly the concatenation of the earlier pages'
projected records, preserving server order within and across pages; the
same holds for `retrieve-information.py`'s loop with its fixed column pair
when its two columns are present. -/
theorem c1_pager_concatenation
    (column_names : List String) (good : List Response) (e : Response)
    (rest : List Response)
    (hgood : ∀ r ∈ good, good_page column_names r)
    (he4 : e.status_code < 400) (hedata : e.data = []) :
    Addyio.perform_fetches column_names (good ++ e :: rest)
      = .ok (column_names.map JValue.str :: fetched_rows column_names good) ∧
    ((∀ r ∈ good, good_page ["email", "description"] r) →
      RetrieveInfo.perform_fetches (good ++ e :: rest)
        = .ok ([JValue.str "email", JValue.str "description"]
            :: fetched_rows ["email", "description"] good)) := by
  have main : ∀ (cols : List String), (∀ r ∈ good, good_page cols r) →
      Addyio.perform_fetches cols (good ++ e :: rest)
        = .ok (cols.map JValue.str :: fetched_rows cols good) := by
    intro cols hg
    unfold Addyio.perform_fetches
    rw [Addyio.fetch_pages_good cols good hg]
    have hlen : e.data.length = 0 := by simp [hedata]
    simp [Addyio.fetch_pages, Nat.not_le.mpr he4, hlen]
  refine ⟨main column_names hgood, fun hg2 => ?_⟩
  rw [ri_perform_fetches_eq]
  simpa using main ["email", "description"] hg2

/-- Witness for claim C1's amended theorem: one good page holding two
records, then an empty page. -/
theorem c1_witness :
    Addyio.perform_fetches ["email"]
        ([⟨200, [[("email", JValue.str "a"), ("description", JValue.str "d")],
                 [("email", JValue.str "b"), ("description", JValue.null)]]⟩]
          ++ ⟨204, []⟩ :: [])
      = .ok [[JValue.str "email"], [JValue.str "a"], [JValue.str "b"]] ∧
    ((∀ r ∈ ([⟨200, [[("email", JValue.str "a"), ("description", JValue.str "d")],
                 [("email", JValue.str "b"), ("description", JValue.null)]]⟩]
          : List Response), good_page ["email", "description"] r) →
      RetrieveInfo.perform_fetches
          ([⟨200, [[("email", JValue.str "a"), ("description", JValue.str "d")],
                 [("email", JValue.str "b"), ("description", JValue.null)]]⟩]
            ++ ⟨204, []⟩ :: [])
        = .ok [[JValue.str "email", JValue.str "description"],
               [JValue.str "a", JValue.str "d"],
               [JValue.str "b", JValue.null]]) :=
  c1_pager_concatenation ["email"]
    [⟨200, [[("email", JValue.str "a"), ("description", JValue.str "d")],
            [("email", JValue.str "b"), ("description", JValue.null)]]⟩]
    ⟨204, []⟩ [] (by decide) (by decide) (by decide)

/-- Claim C2 is right about the intended behaviour but the code cannot
perform it: `key_is_missing` wraps `d.get(key)` — which never raises
`KeyError` — in `try/except`, so it returns `False` for every input and the
`Missing keys detected` + `sys.exit(1)` branch never runs.  A record
lacking a requested column instead crashes at the projection
`datum[column_name]` with an uncaught `KeyError` (exit status 1 via the
interpreter, traceback instead of the logged report; the output file is
still never written).  Evaluated at the failing input: the empty record
with requested column `["email"]`. -/
theorem c2_missing_column_crash :
    key_is_missing [] "email" = false ∧
    Addyio.perform_fetches ["email"] [⟨200, [[]]⟩]
      = .uncaughtKeyError "email" ∧
    run_main ["email"] [⟨200, [[]]⟩] = some ⟨1, none⟩ := by
  decide

/-- Claim C3: `key_is_missing` returns `False` for every dictionary and
key, the `exitMissingKeys` abort of `perform_fetches` is unreachable for
all inputs, and a record that lacks a requested key makes the projection
`[datum[c] for c in column_names]` raise `KeyError` for some requested,
absent key instead. -/
theorem c3_key_is_missing_dead_branch :
    (∀ (d : Record) (k : String), key_is_missing d k = false) ∧
    (∀ (column_names : List String) (pages : List Response)
        (keys : List String),
      Addyio.perform_fetches column_names pages ≠ .exitMissingKeys keys) ∧
    (∀ (column_names : List String) (datum : Record),
      (∃ c ∈ column_names, dict_get datum c = none) →
        ∃ k ∈ column_names, dict_get datum k = none ∧
          project_datum column_names datum = .error k) :=
  ⟨fun _ _ => rfl,
   fun column_names pages keys =>
     Addyio.fetch_pages_no_missing column_names pages _ keys,
   fun column_names datum h => project_datum_missing column_names datum h⟩

/-- Claim C4, as stated, is false on the code: with `--columns` absent the
header is the fixed 18-name allow-list `main_column_list`, not the
lexicographically sorted union of the fetched records' keys (for zero
records that union is empty, yet the header is the full allow-list), and a
record missing one of those names crashes the run (`KeyError 'id'`, exit 1,
no output) instead of being projected with an absent value. -/
theorem c4_counterexample :
    choose_column_names none = .ok main_column_list ∧
    Addyio.perform_fetches main_column_list [⟨200, []⟩]
      = .ok [main_column_list.map JValue.str] ∧
    main_column_list ≠ ([] : List String) ∧
    run_program "info" none [⟨200, [[("email", JValue.str "a")]]⟩]
      = some ⟨1, none⟩ := by
  decide

/-- Claim C4 (amended): when the caller supplies no column list, the column
set is the fixed allow-list `main_column_list` in its source order, the
header row of every successfully produced table is exactly that list, and a
record missing one of those names makes the projection raise `KeyError`
(aborting the run) rather than being projected with an absent value. -/
theorem c4_default_columns (pages : List Response) (t : List (List JValue))
    (h : Addyio.perform_fetches main_column_list pages = .ok t) :
    choose_column_names none = .ok main_column_list ∧
    t.head? = some (main_column_list.map JValue.str) ∧
    (∀ datum : Record,
      (∃ c ∈ main_column_list, dict_get datum c = none) →
        ∃ k ∈ main_column_list,
          project_datum main_column_list datum = .error k) := by
  refine ⟨rfl, ?_, ?_⟩
  · unfold Addyio.perform_fetches at h
    obtain ⟨rows, hrows, -⟩ :=
      Addyio.fetch_pages_ok_inv main_column_list pages _ t h
    simp [hrows]
  · intro datum hmiss
    obtain ⟨k, hk, -, herr⟩ :=
      project_datum_missing main_column_list datum hmiss
    exact ⟨k, hk, herr⟩

/-- Witness for claim C4's amended theorem: a run over a single empty
page. -/
theorem c4_witness :
    choose_column_names none = .ok main_column_list ∧
    ([main_column_list.map JValue.str] : List (List JValue)).head?
      = some (main_column_list.map JValue.str) ∧
    (∀ datum : Record,
      (∃ c ∈ main_column_list, dict_get datum c = none) →
        ∃ k ∈ main_column_list,
          project_datum main_column_list datum = .error k) :=
  c4_default_columns [⟨200, []⟩] [main_column_list.map JValue.str] (by decide)

/-- Claim C5: when the first response with a failure status (`>= 400`) is
reached — every earlier page fetched fine and was processed without a crash
— the run stops with that status reported and exit code 1, the responses
after it are arbitrary and never requested (no retry), and no output file
is written; likewise for `retrieve-information.py`. -/
theorem c5_bad_status_aborts
    (column_names : List String) (good : List Response) (bad : Response)
    (rest : List Response)
    (hgood : ∀ r ∈ good, good_page column_names r)
    (hbad : bad.status_code ≥ 400) :
    Addyio.perform_fetches column_names (good ++ bad :: rest)
      = .exitBadStatus bad.status_code ∧
    run_main column_names (good ++ bad :: rest) = some ⟨1, none⟩ ∧
    ((∀ r ∈ good, good_page ["email", "description"] r) →
      RetrieveInfo.perform_fetches (good ++ bad :: rest)
        = .exitBadStatus bad.status_code) := by
  have main : ∀ (cols : List String), (∀ r ∈ good, good_page cols r) →
      Addyio.perform_fetches cols (good ++ bad :: rest)
        = .exitBadStatus bad.status_code := by
    intro cols hg
    unfold Addyio.perform_fetches
    rw [Addyio.fetch_pages_good cols good hg]
    simp [Addyio.fetch_pages, hbad]
  refine ⟨main column_names hgood, ?_, fun hg2 => ?_⟩
  · simp [run_main, main column_names hgood]
  · rw [ri_perform_fetches_eq]
    exact main ["email", "description"] hg2

/-- Witness for claim C5: one good page, then a 500 response, then a
further (never requested) page. -/
theorem c5_witness :
    Addyio.perform_fetches ["email"]
        ([⟨200, [[("email", JValue.str "a"), ("description", JValue.null)]]⟩]
          ++ ⟨500, []⟩ :: [⟨200, []⟩])
      = .exitBadStatus 500 ∧
    run_main ["email"]
        ([⟨200, [[("email", JValue.str "a"), ("description", JValue.null)]]⟩]
          ++ ⟨500, []⟩ :: [⟨200, []⟩]) = some ⟨1, none⟩ ∧
    ((∀ r ∈ ([⟨200, [[("email", JValue.str "a"), ("description", JValue.null)]]⟩]
          : List Response), good_page ["email", "description"] r) →
      RetrieveInfo.perform_fetches
          ([⟨200, [[("email", JValue.str "a"), ("description", JValue.null)]]⟩]
            ++ ⟨500, []⟩ :: [⟨200, []⟩])
        = .exitBadStatus 500) :=
  c5_bad_status_aborts ["email"]
    [⟨200, [[("email", JValue.str "a"), ("description", JValue.null)]]⟩]
    ⟨500, []⟩ [⟨200, []⟩] (by decide) (by decide)

/-- Claim C6, as stated, is false on the code: `argparse` checks
`--log-level` against its `choices` before any program logic runs and, for
a value outside them, exits the process with status 2 (its standard error
exit), not 1. -/
theorem c6_counterexample :
    run_program "verbose" none [] = some ⟨2, none⟩ ∧
    (⟨2, none⟩ : RunResult) ≠ ⟨1, none⟩ := by
  decide

/-- Claim C6 (amended): for every `--log-level` value outside
`{debug, info, warning, error, critical}`, the process exits with status 2
(`argparse`'s invalid-choice exit), with no output file written, regardless
of the other arguments and of the server. -/
theorem c6_bad_log_level
    (log_level : String) (columns_arg : Option String)
    (pages : List Response)
    (h : log_level ∉ log_level_choices) :
    run_program log_level columns_arg pages = some ⟨2, none⟩ := by
  have hc : log_level_choices.contains log_level = false := by
    simpa using h
  simp [run_program, hc, h]

/-- Witness for claim C6's amended theorem. -/
theorem c6_witness :
    run_program "verbose" none [] = some ⟨2, none⟩ :=
  c6_bad_log_level "verbose" none [] (by decide)

/-- Claim C7: a supplied `--columns` list containing a name outside the
allow-list makes the run exit with code 1 (after the warning) with no
output file and without consulting the server (the result is the same for
every page sequence); a list whose names are all in the allow-list passes
validation and the run proceeds to fetching. -/
theorem c7_column_validation (s : String) (pages1 pages2 : List Response) :
    ((∃ c ∈ parse_columns_argument s, c ∉ main_column_list) →
      run_program "info" (some s) pages1 = some ⟨1, none⟩ ∧
      run_program "info" (some s) pages1
        = run_program "info" (some s) pages2) ∧
    ((∀ c ∈ parse_columns_argument s, c ∈ main_column_list) →
      run_program "info" (some s) pages1
        = run_main (parse_columns_argument s) pages1) := by
  have h1 : ("info" : String) ∈ log_level_choices := by decide
  have h2 : logging_level_from_string "info" = .ok 20 := by decide
  constructor
  · intro hbad
    have hv : validate_user_column_selection (parse_columns_argument s)
        = false := (validate_false_iff (parse_columns_argument s)).mpr hbad
    have hcc : choose_column_names (some s) = .error 1 := by
      simp [choose_column_names, hv]
    constructor <;> simp [run_program, h1, h2, hcc]
  · intro hgoodcols
    have hv : ¬ validate_user_column_selection (parse_columns_argument s)
        = false := by
      rw [validate_false_iff]
      push_neg
      exact hgoodcols
    have hcc : choose_column_names (some s)
        = .ok (parse_columns_argument s) := by
      simp [choose_column_names, hv]
    simp [run_program, h1, h2, hcc]

/-- Witness for claim C7: the unknown column name `bogus` aborts before any
fetch. -/
theorem c7_witness :
    run_program "info" (some "bogus") [⟨200, []⟩] = some ⟨1, none⟩ :=
  ((c7_column_validation "bogus" [⟨200, []⟩] []).1 (by decide)).1

/-- Claim C8: when the very first page already has zero records (and a
success status), the run succeeds: `perform_fetches` returns just the
header row, the file is written, and its CSV text re-parses to exactly one
row — the header — with no data rows. -/
theorem c8_zero_records
    (column_names : List String) (r : Response) (rest : List Response)
    (h4 : r.status_code < 400) (hdata : r.data = []) :
    Addyio.perform_fetches column_names (r :: rest)
      = .ok [column_names.map JValue.str] ∧
    run_main column_names (r :: rest)
      = some ⟨0, some (write_data_to_csv [column_names])⟩ ∧
    csv_parse (write_data_to_csv [column_names]) = [column_names] := by
  have hlen : r.data.length = 0 := by simp [hdata]
  have hperf : Addyio.perform_fetches column_names (r :: rest)
      = .ok [column_names.map JValue.str] := by
    unfold Addyio.perform_fetches
    simp [Addyio.fetch_pages, Nat.not_le.mpr h4, hlen]
  refine ⟨hperf, ?_, write_then_parse [column_names]⟩
  simp [run_main, hperf, List.map_map, map_py_str_str]

/-- Witness for claim C8. -/
theorem c8_witness :
    Addyio.perform_fetches ["email"] [⟨204, []⟩]
      = .ok [[JValue.str "email"]] ∧
    run_main ["email"] [⟨204, []⟩]
      = some ⟨0, some (write_data_to_csv [["email"]])⟩ ∧
    csv_parse (write_data_to_csv [["email"]]) = [["email"]] :=
  c8_zero_records ["email"] ⟨204, []⟩ [] (by decide) (by decide)

/-- Claim C9: for every table of string-valued rows, writing it with
`write_data_to_csv` (Python's `csv.writer`, `excel` dialect) and re-parsing
the resulting text with the CSV reader yields exactly the original rows,
including for values containing commas, double quotes or newlines. -/
theorem c9_csv_round_trip (t : List (List String)) :
    csv_parse (write_data_to_csv t) = t :=
  write_then_parse t

/-- Claim C10: in every table a successful run produces — for every column
list and page sequence — each row's length equals the header's length (the
number of requested columns); in `retrieve-information.py` every row has
the fixed header's length 2. -/
theorem c10_row_lengths :
    (∀ (column_names : List String) (pages : List Response)
        (t : List (List JValue)),
      Addyio.perform_fetches column_names pages = .ok t →
        ∀ row ∈ t, row.length = column_names.length) ∧
    (∀ (pages : List Response) (t : List (List JValue)),
      RetrieveInfo.perform_fetches pages = .ok t →
        ∀ row ∈ t, row.length = 2) := by
  have main : ∀ (column_names : List String) (pages : List Response)
      (t : List (List JValue)),
      Addyio.perform_fetches column_names pages = .ok t →
        ∀ row ∈ t, row.length = column_names.length := by
    intro column_names pages t h row hrow
    unfold Addyio.perform_fetches at h
    obtain ⟨rows, hrows, hlens⟩ :=
      Addyio.fetch_pages_ok_inv column_names pages _ t h
    subst hrows
    rcases List.mem_append.mp hrow with hrow | hrow
    · simp at hrow
      simp [hrow]
    · exact hlens row hrow
  refine ⟨main, fun pages t h row hrow => ?_⟩
  have h2 := (ri_perform_fetches_eq pages) ▸ h
  simpa using main ["email", "description"] pages t h2 row hrow

end AddyFetch
